import Mathlib

/-!
Verification of the job-queue driver of the browser video compressor
(`src/unnamed/part_000`, component `App` and its `processNext` effect).

The embedding translates the queue data model and the driver's operations:

* a job record (`Job`) mirrors the object literal built in `addFiles`
  (line 57): `{id, file, name, status, progress, outputUrl, error}`;
* `updateItem` (lines 125-127) is a map over the queue patching the job
  whose `id` matches;
* `clearFinished` (lines 129-131) filters the queue;
* `cancelItem` (lines 133-136) overwrites a status with `skipped`;
* `selectNext` is the `findIndex(status === 'queued')` selection of
  `processNext` (line 81) together with the indexing on line 86;
* `processNextSync` is the synchronous prefix of `processNext`
  (lines 78-88): the guard checks, the selection, and the
  `updateItem(item.id, {status:'processing', ...})` start, i.e. everything
  executed before the first `await` suspends the function;
* `processJobFrom` is the rest of the `try`/`catch` body of `processNext`
  (lines 87-119) with the engine calls recorded in a trace: `writeFile`,
  the registration of the `'progress'` listener (which `ffmpeg.on` appends
  to the listener list, line 93), `exec`, `readFile`, the `done` update,
  and the two `try { await ffmpeg.deleteFile(..) } catch {}` cleanups.
  The `catch (err)` branch (lines 117-119) is inlined at each engine call
  that can throw;
* `onProgressEvent` is the `'progress'` handler body (line 94) and
  `onCompletion` the continuation after `exec`/`readFile` resolve
  (lines 109-112), taken separately so that deliveries of asynchronous
  events can be interleaved with other queue mutations exactly as the
  event loop interleaves them;
* `fireProgress` delivers one engine progress event to every registered
  `'progress'` listener, in registration order;
* `stripLastExt`/`downloadName` embed the download-name expression
  `item.name.replace(/\.[^.]+$/, '') + '-compressed.mp4'` (line 196).

JavaScript numbers carrying progress fractions are modelled as rationals;
`Math.round` rounds half toward positive infinity, i.e. `⌊x + 1/2⌋`.
-/

/-- The five job statuses used by the code: `'queued'`, `'processing'`,
`'done'`, `'error'`, `'skipped'`. -/
inductive Status where
  | queued
  | processing
  | done
  | error
  | skipped
deriving DecidableEq

/-- One queue entry, as built by `addFiles`:
`{id, file, name, status, progress, outputUrl, error}`.  `id` is the opaque
unique identifier, `file` the opaque source bytes reference. -/
structure Job where
  id : Nat
  file : Nat
  name : String
  status : Status
  progress : Int
  outputUrl : Option String
  error : Option String
deriving DecidableEq

/-- A partial job update, the shape of the object literals passed to
`updateItem`.  Every call site of `updateItem` in the source patches a
subset of the fields `status`, `progress`, `outputUrl`, `error`; a `none`
field is absent from the literal and left unchanged by the spread
`{...it, ...patch}`. -/
structure Patch where
  status : Option Status := none
  progress : Option Int := none
  outputUrl : Option (Option String) := none
  error : Option (Option String) := none

/-- The JavaScript object spread `{...it, ...patch}`: fields present in the
patch win, absent fields keep the job's value. -/
def applyPatch (j : Job) (p : Patch) : Job :=
  { j with
    status := p.status.getD j.status
    progress := p.progress.getD j.progress
    outputUrl := p.outputUrl.getD j.outputUrl
    error := p.error.getD j.error }

/-- `updateItem` (lines 125-127):
`setQueue(prev => prev.map(it => it.id === id ? { ...it, ...patch } : it))`. -/
def updateItem (q : List Job) (i : Nat) (p : Patch) : List Job :=
  q.map fun it => if it.id = i then applyPatch it p else it

/-- `clearFinished` (lines 129-131):
`setQueue(prev => prev.filter(it => it.status !== 'done' && it.status !== 'error'))`. -/
def clearFinished (q : List Job) : List Job :=
  q.filter fun it => decide (it.status ≠ Status.done) && decide (it.status ≠ Status.error)

/-- The status patch of `cancelItem` (line 135): `{ status: 'skipped' }`. -/
def skipPatch : Patch := { status := some Status.skipped }

/-- `cancelItem` (lines 133-136): `updateItem(id, { status: 'skipped' })`. -/
def cancelItem (q : List Job) (i : Nat) : List Job :=
  updateItem q i skipPatch

/-- The start patch of `processNext` (line 88):
`{ status: 'processing', progress: 0, error: null }`. -/
def startPatch : Patch :=
  { status := some Status.processing, progress := some 0, error := some none }

/-- The completion patch (line 112):
`{ status: 'done', progress: 100, outputUrl: url }`. -/
def donePatch (url : String) : Patch :=
  { status := some Status.done, progress := some 100, outputUrl := some (some url) }

/-- The failure patch of the `catch` branch (line 118):
`{ status: 'error', error: err?.message || String(err) }`. -/
def errorPatch (m : String) : Patch :=
  { status := some Status.error, error := some (some m) }

/-- JavaScript `Math.round`: round half toward positive infinity. -/
def jsRound (q : ℚ) : ℤ := ⌊q + 1 / 2⌋

/-- The patch of the `'progress'` handler (line 94):
`{ progress: Math.round((progress || 0) * 100) }` for a present numeric
fraction `f` (for which `f || 0` has the value of `f`). -/
def progressPatch (f : ℚ) : Patch :=
  { progress := some (jsRound (f * 100)) }

/-- Delivery of one engine progress event to the handler registered for
job `i` (line 94): `updateItem(item.id, { progress: Math.round(... * 100) })`. -/
def onProgressEvent (q : List Job) (i : Nat) (f : ℚ) : List Job :=
  updateItem q i (progressPatch f)

/-- The continuation of `processNext` once `exec` and `readFile` have
resolved (lines 109-112), applied to whatever the queue holds at that
moment: `updateItem(item.id, { status: 'done', progress: 100, outputUrl: url })`. -/
def onCompletion (q : List Job) (i : Nat) (url : String) : List Job :=
  updateItem q i (donePatch url)

/-- The selection of `processNext` (lines 81-86):
`queue.findIndex(item => item.status === 'queued')` followed by
`queue[nextIndex]`, i.e. the first job in insertion order whose status is
`queued`. -/
def selectNext (q : List Job) : Option Job :=
  q.find? fun it => decide (it.status = Status.queued)

/-- The synchronous prefix of `processNext` (lines 78-88): the
`!ready || !ffmpeg` guard, the `!running` guard, the selection, and the
`updateItem(item.id, { status: 'processing', progress: 0, error: null })`
start update — everything that runs before the first `await`. -/
def processNextSync (ready running : Bool) (q : List Job) : List Job :=
  if !ready then q
  else if !running then q
  else
    match selectNext q with
    | none => q
    | some item => updateItem q item.id startPatch

/-- The input handle name (line 89): `` `in_${item.id}` ``. -/
def inputName (i : Nat) : String := "in_" ++ toString i

/-- The output handle name (line 90): `` `out_${item.id}.mp4` ``. -/
def outputName (i : Nat) : String := "out_" ++ toString i ++ ".mp4"

/-- The engine (ffmpeg) primitives the driver awaits, labelled by file
handle where one is passed. -/
inductive EngineCall where
  | writeFile (handle : String)
  | exec
  | readFile (handle : String)
  | deleteFile (handle : String)
deriving DecidableEq

/-- Recognizes a `deleteFile` engine call in a trace. -/
def isDeleteCall : EngineCall → Bool
  | EngineCall.deleteFile _ => true
  | _ => false

/-- Behaviour of the external engine during one job execution: whether
each awaited primitive resolves or rejects, the output bytes/URL produced
by a successful `readFile` + `createObjectURL`, whether `deleteFile`
resolves for a given handle, and the message carried by a rejection. -/
structure Engine where
  writeOk : Bool
  execOk : Bool
  readOk : Bool
  outputData : String
  deleteOk : String → Bool
  failMsg : String

/-- Whether a given engine call resolves under engine behaviour `e`. -/
def engineOk (e : Engine) : EngineCall → Bool
  | EngineCall.writeFile _ => e.writeOk
  | EngineCall.exec => e.execOk
  | EngineCall.readFile _ => e.readOk
  | EngineCall.deleteFile h => e.deleteOk h

/-- Driver-visible mutable state: the queue (React state `queue`), the
trace of engine calls issued so far, and the job ids whose `'progress'`
handlers are registered on the ffmpeg instance (`ffmpeg.on` appends a
listener and nothing in the source ever removes one). -/
structure DriverState where
  queue : List Job
  trace : List EngineCall
  listeners : List Nat
deriving DecidableEq

/-- One awaited engine call: the call is recorded in the trace and either
resolves (`Except.ok`) or rejects with the engine's message. -/
def engineStep (e : Engine) (c : EngineCall) (s : DriverState) :
    Except String Unit × DriverState :=
  ((if engineOk e c then Except.ok () else Except.error e.failMsg),
   { s with trace := s.trace ++ [c] })

/-- `try { await ffmpeg.deleteFile(h) } catch {}` (lines 115-116): the
call is issued, its outcome is discarded. -/
def attemptDelete (e : Engine) (h : String) (s : DriverState) : DriverState :=
  (engineStep e (EngineCall.deleteFile h) s).2

/-- The `try`/`catch` body of `processNext` for the selected job
(lines 87-119), from the start update onward.  The `catch (err)` branch —
`updateItem(item.id, { status: 'error', error: msg })` — is inlined at
each `await` that can reject.  On line 93 the `'progress'` handler for
this job is registered; no path removes it. -/
def processJobFrom (e : Engine) (i : Nat) (s : DriverState) : DriverState :=
  let s := { s with queue := updateItem s.queue i startPatch }
  match engineStep e (EngineCall.writeFile (inputName i)) s with
  | (Except.error m, s) => { s with queue := updateItem s.queue i (errorPatch m) }
  | (Except.ok _, s) =>
    let s := { s with listeners := s.listeners ++ [i] }
    match engineStep e EngineCall.exec s with
    | (Except.error m, s) => { s with queue := updateItem s.queue i (errorPatch m) }
    | (Except.ok _, s) =>
      match engineStep e (EngineCall.readFile (outputName i)) s with
      | (Except.error m, s) => { s with queue := updateItem s.queue i (errorPatch m) }
      | (Except.ok _, s) =>
        let s := { s with queue := updateItem s.queue i (donePatch e.outputData) }
        let s := attemptDelete e (inputName i) s
        attemptDelete e (outputName i) s

/-- One full invocation of `processNext` (lines 78-120) running the
selected job to its settled outcome under engine behaviour `e`. -/
def processNextRun (e : Engine) (ready running : Bool) (s : DriverState) :
    DriverState :=
  if !ready then s
  else if !running then s
  else
    match selectNext s.queue with
    | none => s
    | some item => processJobFrom e item.id s

/-- Delivery of one engine progress event carrying fraction `f`: every
registered `'progress'` listener runs its handler (line 94), in
registration order. -/
def fireProgress (ls : List Nat) (f : ℚ) (q : List Job) : List Job :=
  ls.foldl (fun acc i => onProgressEvent acc i f) q

/-- `name.replace(/\.[^.]+$/, '')` (line 196).  The regex matches a dot
followed by one or more non-dot characters reaching the end of the
string, i.e. the last dot together with the non-empty dot-free suffix
after it; when the string has no dot, or ends in a dot, there is no match
and the name is returned unchanged. -/
def stripLastExt (s : String) : String :=
  match s.data.reverse.dropWhile (fun c => !(c == '.')) with
  | [] => s
  | _ :: rest =>
    if s.data.reverse.takeWhile (fun c => !(c == '.')) = [] then s
    else String.mk rest.reverse

/-- The download attribute (line 196):
`item.name.replace(/\.[^.]+$/, '') + '-compressed.mp4'`. -/
def downloadName (name : String) : String :=
  stripLastExt name ++ "-compressed.mp4"

/-! Concrete fixtures used by the counterexample and witness theorems. -/

/-- A job currently being transcoded. -/
def demoProcessing : Job := ⟨0, 0, "a.mov", Status.processing, 30, none, none⟩

/-- A job waiting in the queue behind `demoProcessing`. -/
def demoQueued : Job := ⟨1, 1, "b.mov", Status.queued, 0, none, none⟩

/-- A freshly appended job with id 0. -/
def demoJob0 : Job := ⟨0, 0, "a.mov", Status.queued, 0, none, none⟩

/-- A freshly appended job with id 1. -/
def demoJob1 : Job := ⟨1, 1, "b.mov", Status.queued, 0, none, none⟩

/-- An engine run in which every awaited call resolves. -/
def engineAllOk : Engine := ⟨true, true, true, "blob:ok", fun _ => true, "boom"⟩

/-- An engine run in which `exec` rejects. -/
def engineExecFails : Engine := ⟨true, false, true, "blob:ok", fun _ => true, "boom"⟩

/-- Driver state holding two freshly appended jobs, no engine calls made,
no listeners registered. -/
def demoTwoQueued : DriverState := ⟨[demoJob0, demoJob1], [], []⟩

/-- Driver state after the reactive loop has run both queued jobs of
`demoTwoQueued` to completion under `engineAllOk`. -/
def demoAfterTwo : DriverState :=
  processNextRun engineAllOk true true (processNextRun engineAllOk true true demoTwoQueued)

/-- Driver state holding a single freshly appended job. -/
def demoOneQueued : DriverState := ⟨[demoJob0], [], []⟩

/-! ## Helper lemmas -/

/-- `Math.round(50) = 50`. -/
theorem jsRound_of_fifty : jsRound (50 : ℚ) = 50 := by
  rw [jsRound]; norm_num

/-- `Math.round(100) = 100`. -/
theorem jsRound_of_hundred : jsRound (100 : ℚ) = 100 := by
  rw [jsRound]; norm_num

/-- A successful `find?` returns the first element satisfying the
predicate: the list splits around the hit and everything before it fails
the predicate. -/
theorem find?_first {α : Type} (p : α → Bool) (l : List α) (a : α)
    (h : l.find? p = some a) :
    p a = true ∧ ∃ pre post, l = pre ++ a :: post ∧ ∀ x ∈ pre, p x = false := by
  induction l with
  | nil => simp [List.find?] at h
  | cons b t ih =>
    by_cases hb : p b
    · rw [List.find?_cons_of_pos t hb] at h
      obtain rfl : b = a := by injection h
      exact ⟨hb, [], t, rfl, by simp⟩
    · rw [List.find?_cons_of_neg t hb] at h
      obtain ⟨hp, pre, post, hsplit, hpre⟩ := ih h
      refine ⟨hp, b :: pre, post, by simp [hsplit], ?_⟩
      intro x hx
      rcases List.mem_cons.mp hx with rfl | hx
      · exact Bool.of_not_eq_true hb
      · exact hpre x hx

/-! ## Claims -/

/-- Claim C1: the claim states that whenever the driver loop is
re-evaluated while some job already holds `processing`, it selects and
starts no new job, so at most one job is ever `processing`.  The code has
no such guard: re-evaluated on the queue `[demoProcessing, demoQueued]`
with the run flag true and the engine ready, the synchronous prefix of
`processNext` selects `demoQueued` and marks it `processing`, leaving two
jobs in status `processing` at the moment the driver suspends. -/
theorem processNext_starts_second_processing :
    (processNextSync true true [demoProcessing, demoQueued]).countP
        (fun it => decide (it.status = Status.processing)) = 2 := by
  decide

/-- Claim C2: the claim states that events arriving for a job already in
a terminal state are discarded.  The code applies them unconditionally:
after `cancelItem` marks the processing job `skipped`, a late progress
event overwrites its `progress` (30 becomes 100) and the late completion
continuation overwrites its status with `done`, resurrecting the skipped
job. -/
theorem late_events_resurrect_skipped_job :
    (cancelItem [demoProcessing] 0).map Job.status = [Status.skipped] ∧
    (onCompletion (cancelItem [demoProcessing] 0) 0 "blob:ok").map Job.status
      = [Status.done] ∧
    (onProgressEvent (cancelItem [demoProcessing] 0) 0 1).map Job.progress
      = [100] := by
  refine ⟨by decide, by decide, ?_⟩
  simp [onProgressEvent, progressPatch, jsRound_of_hundred, cancelItem, updateItem,
    applyPatch, skipPatch, demoProcessing]

/-- Claim C4, counterexample: the claim states that clear-finished
removes exactly the jobs whose status is `done`, `error` or `skipped`;
the code's filter keeps `skipped` jobs. -/
theorem clearFinished_keeps_skipped :
    clearFinished [⟨0, 0, "a.mov", Status.skipped, 40, none, none⟩]
      = [⟨0, 0, "a.mov", Status.skipped, 40, none, none⟩] := by
  decide

/-- Claim C4, amended: clear-finished removes exactly the jobs whose
status is `done` or `error` — `skipped` jobs are retained — and preserves
the relative order of the surviving jobs (the result is a sublist of the
input). -/
theorem clearFinished_removes_done_error (q : List Job) :
    List.Sublist (clearFinished q) q ∧
    ∀ j, j ∈ clearFinished q ↔
      j ∈ q ∧ j.status ≠ Status.done ∧ j.status ≠ Status.error := by
  refine ⟨List.filter_sublist q, fun j => ?_⟩
  simp [clearFinished, List.mem_filter, and_assoc]

/-- Claim C3: the claim states that the progress subscription of a job's
execution is torn down when the execution resolves, so a later progress
event updates only the later job.  The code registers a listener with
`ffmpeg.on` on every execution and never removes one: after the two jobs
of `demoTwoQueued` have both run to completion, both listeners are still
registered, and a progress event with fraction 1/2 fired during or after
the second job's execution overwrites the progress of both jobs — the
earlier, already-`done` job's progress drops from 100 to 50. -/
theorem progress_listener_never_torn_down :
    demoAfterTwo.listeners = [0, 1] ∧
    demoAfterTwo.queue.map Job.status = [Status.done, Status.done] ∧
    demoAfterTwo.queue.map Job.progress = [100, 100] ∧
    (fireProgress demoAfterTwo.listeners ((1 : ℚ) / 2) demoAfterTwo.queue).map
        Job.progress = [50, 50] := by
  have hq : demoAfterTwo.queue =
      [⟨0, 0, "a.mov", Status.done, 100, some "blob:ok", none⟩,
       ⟨1, 1, "b.mov", Status.done, 100, some "blob:ok", none⟩] := by decide
  have hl : demoAfterTwo.listeners = [0, 1] := by decide
  refine ⟨hl, by decide, by decide, ?_⟩
  rw [hq, hl]
  norm_num [fireProgress, onProgressEvent, progressPatch, updateItem,
    applyPatch, jsRound_of_fifty]

/-- Claim C5, counterexample: the claim states that deletion of both
engine handles is attempted regardless of whether the execution ends in
`done` or `error`.  When `exec` rejects, the `catch` branch only writes
the `error` status: the trace of the run contains no `deleteFile` call at
all (the already-written input handle is leaked). -/
theorem error_path_attempts_no_deletion :
    (processJobFrom engineExecFails 0 demoOneQueued).trace
        = [EngineCall.writeFile (inputName 0), EngineCall.exec] ∧
    (processJobFrom engineExecFails 0 demoOneQueued).trace.countP isDeleteCall
        = 0 ∧
    (processJobFrom engineExecFails 0 demoOneQueued).queue.map Job.status
        = [Status.error] := by
  decide

/-- Claim C5, amended: when a job's execution succeeds (`done`), the
driver attempts deletion of both the input and the output engine handle,
and a failure of either deletion never changes the job's status or error
message — the resulting queue does not depend on the engine's `deleteOk`
behaviour `dk` at all; when the execution fails at `writeFile`, `exec` or
`readFile` (`error`), no deletion is attempted. -/
theorem processJob_cleanup_paths (od fm : String) (dk : String → Bool) (i : Nat)
    (q : List Job) (tr : List EngineCall) (ls : List Nat) :
    (processJobFrom ⟨true, true, true, od, dk, fm⟩ i ⟨q, tr, ls⟩ =
      ⟨updateItem (updateItem q i startPatch) i (donePatch od),
       tr ++ [EngineCall.writeFile (inputName i), EngineCall.exec,
              EngineCall.readFile (outputName i),
              EngineCall.deleteFile (inputName i),
              EngineCall.deleteFile (outputName i)],
       ls ++ [i]⟩) ∧
    (∀ x r : Bool, processJobFrom ⟨false, x, r, od, dk, fm⟩ i ⟨q, tr, ls⟩ =
      ⟨updateItem (updateItem q i startPatch) i (errorPatch fm),
       tr ++ [EngineCall.writeFile (inputName i)], ls⟩) ∧
    (∀ r : Bool, processJobFrom ⟨true, false, r, od, dk, fm⟩ i ⟨q, tr, ls⟩ =
      ⟨updateItem (updateItem q i startPatch) i (errorPatch fm),
       tr ++ [EngineCall.writeFile (inputName i), EngineCall.exec],
       ls ++ [i]⟩) ∧
    (processJobFrom ⟨true, true, false, od, dk, fm⟩ i ⟨q, tr, ls⟩ =
      ⟨updateItem (updateItem q i startPatch) i (errorPatch fm),
       tr ++ [EngineCall.writeFile (inputName i), EngineCall.exec,
              EngineCall.readFile (outputName i)], ls ++ [i]⟩) := by
  refine ⟨?_, fun x r => ?_, fun r => ?_, ?_⟩ <;>
    simp [processJobFrom, engineStep, engineOk, attemptDelete]

/-- Claim C6: for every progress event carrying fractional value `f` (the
engine contract delivers fractions in `[0, 1]`), the handler sets the
targeted job's `progress` field to `round(f * 100)`, which under that
hypothesis coincides with `round(f * 100)` clamped to `[0, 100]`. -/
theorem progress_event_rounds_clamped (f : ℚ) (h0 : 0 ≤ f) (h1 : f ≤ 1)
    (q : List Job) (i : Nat) :
    onProgressEvent q i f =
      updateItem q i { progress := some (max 0 (min 100 (jsRound (f * 100)))) } := by
  have hl : (0 : ℤ) ≤ jsRound (f * 100) := by
    rw [jsRound]
    exact Int.floor_nonneg.mpr (by linarith)
  have hu : jsRound (f * 100) ≤ 100 := by
    rw [jsRound]
    have h2 : (⌊f * 100 + 1 / 2⌋ : ℤ) < 101 := Int.floor_lt.mpr (by push_cast; linarith)
    omega
  have heq : jsRound (f * 100) = max 0 (min 100 (jsRound (f * 100))) := by omega
  exact congrArg (fun v => updateItem q i { progress := some v }) heq

/-- Witness for claim C6 at the concrete fraction 1. -/
theorem progress_event_rounds_clamped_witness :
    onProgressEvent [demoProcessing] 0 1 =
      updateItem [demoProcessing] 0
        { progress := some (max 0 (min 100 (jsRound ((1 : ℚ) * 100)))) } :=
  progress_event_rounds_clamped 1 zero_le_one le_rfl [demoProcessing] 0

/-- Claim C7: when the run flag is false or the engine is not ready, a
re-evaluation of the driver leaves the whole state unchanged — no engine
call, no listener registration, no job mutation; otherwise it selects the
first job in insertion order whose status is `queued` (everything before
the selected job in the queue is not `queued`, so jobs start in FIFO
order of becoming queued) and starts it, and it leaves the state
unchanged when no `queued` job exists. -/
theorem processNext_selection (e : Engine) (ready running : Bool)
    (s : DriverState) :
    (ready = false → processNextRun e ready running s = s) ∧
    (running = false → processNextRun e ready running s = s) ∧
    (selectNext s.queue = none → processNextRun e ready running s = s) ∧
    (∀ j, selectNext s.queue = some j →
      processNextRun e true true s = processJobFrom e j.id s ∧
      j.status = Status.queued ∧
      ∃ pre post, s.queue = pre ++ j :: post ∧
        ∀ k ∈ pre, k.status ≠ Status.queued) := by
  refine ⟨?_, ?_, ?_, ?_⟩
  · rintro rfl; simp [processNextRun]
  · rintro rfl; cases ready <;> simp [processNextRun]
  · intro h; cases ready <;> cases running <;> simp [processNextRun, h]
  · intro j hj
    obtain ⟨hp, pre, post, hsplit, hpre⟩ := find?_first _ _ _ hj
    refine ⟨by simp [processNextRun, hj], of_decide_eq_true hp,
      pre, post, hsplit, ?_⟩
    intro k hk
    simpa using hpre k hk

/-- Witness for claim C7: with two queued jobs, a paused driver changes
nothing, and a running driver starts exactly the first queued job. -/
theorem processNext_selection_witness :
    processNextRun engineAllOk true false demoTwoQueued = demoTwoQueued ∧
    processNextRun engineAllOk true true demoTwoQueued
      = processJobFrom engineAllOk demoJob0.id demoTwoQueued ∧
    demoJob0.status = Status.queued :=
  ⟨(processNext_selection engineAllOk true false demoTwoQueued).2.1 rfl,
   ((processNext_selection engineAllOk true true demoTwoQueued).2.2.2
      demoJob0 (by decide)).1,
   ((processNext_selection engineAllOk true true demoTwoQueued).2.2.2
      demoJob0 (by decide)).2.1⟩

/-- Claim C8: the store's update operation patches exactly the jobs whose
`id` matches, keeps the length and the position of every entry, leaves
any job with a different `id` untouched, never changes a job's identity
fields, and is a no-op (raising nothing — it is a total function) when no
job carries the given `id`. -/
theorem updateItem_merge_frame (q : List Job) (i : Nat) (p : Patch) :
    (updateItem q i p).length = q.length ∧
    (∀ k : Nat, (updateItem q i p)[k]? =
      (q[k]?).map fun j => if j.id = i then applyPatch j p else j) ∧
    (∀ k : Nat, ∀ j, q[k]? = some j → j.id ≠ i →
      (updateItem q i p)[k]? = some j) ∧
    (∀ j, (applyPatch j p).id = j.id ∧ (applyPatch j p).name = j.name ∧
      (applyPatch j p).file = j.file) ∧
    ((∀ j ∈ q, j.id ≠ i) → updateItem q i p = q) := by
  refine ⟨by simp [updateItem], ?_, ?_, ?_, ?_⟩
  · intro k; simp [updateItem, List.getElem?_map]
  · intro k j hk hj
    simp [updateItem, List.getElem?_map, hk, hj]
  · intro j; simp [applyPatch]
  · intro h
    have hmap : q.map (fun it => if it.id = i then applyPatch it p else it)
        = q.map id :=
      List.map_congr_left fun a ha => by simp [h a ha]
    simpa [updateItem] using hmap

/-- Witness for claim C8: updating an absent id is a no-op. -/
theorem updateItem_merge_frame_witness :
    updateItem [demoProcessing] 5 skipPatch = [demoProcessing] :=
  (updateItem_merge_frame [demoProcessing] 5 skipPatch).2.2.2.2 (by decide)

/-- `takeWhile` of a list whose prefix all satisfies the predicate,
followed by a failing element, is exactly that prefix. -/
theorem takeWhile_all_append {α : Type} (p : α → Bool) (l1 : List α) (c : α)
    (l2 : List α) (h : ∀ x ∈ l1, p x = true) (hc : p c = false) :
    (l1 ++ c :: l2).takeWhile p = l1 := by
  induction l1 with
  | nil => simp [List.takeWhile_cons, hc]
  | cons a t ih =>
    have ha : p a = true := h a (by simp)
    simp [List.takeWhile_cons, ha, ih fun x hx => h x (by simp [hx])]

/-- `dropWhile` of a list whose prefix all satisfies the predicate,
followed by a failing element, is the failing element and the rest. -/
theorem dropWhile_all_append {α : Type} (p : α → Bool) (l1 : List α) (c : α)
    (l2 : List α) (h : ∀ x ∈ l1, p x = true) (hc : p c = false) :
    (l1 ++ c :: l2).dropWhile p = c :: l2 := by
  induction l1 with
  | nil => simp [List.dropWhile_cons, hc]
  | cons a t ih =>
    have ha : p a = true := h a (by simp)
    simp [List.dropWhile_cons, ha, ih fun x hx => h x (by simp [hx])]

/-- `dropWhile` of a list all of whose elements satisfy the predicate is
empty. -/
theorem dropWhile_all_nil {α : Type} (p : α → Bool) (l : List α)
    (h : ∀ x ∈ l, p x = true) : l.dropWhile p = [] := by
  induction l with
  | nil => rfl
  | cons a t ih =>
    have ha : p a = true := h a (by simp)
    simp [List.dropWhile_cons, ha, ih fun x hx => h x (by simp [hx])]

/-- Rebuilding a string from its own character list yields the string. -/
theorem mk_data (s : String) : String.mk s.data = s := by
  cases s; rfl

/-- The regex replacement on a name of the form `base ++ "." ++ ext`,
where the extension is non-empty and dot-free, strips the final dot and
extension. -/
theorem stripLastExt_append (base ext : String) (hne : ext.data ≠ [])
    (hnd : ∀ c ∈ ext.data, c ≠ '.') :
    stripLastExt (base ++ "." ++ ext) = base := by
  have hrev : (base ++ "." ++ ext).data.reverse
      = ext.data.reverse ++ '.' :: base.data.reverse := by
    simp [String.data_append]
  have hall : ∀ x ∈ ext.data.reverse, (!(x == '.')) = true := by
    intro x hx
    simp [hnd x (List.mem_reverse.mp hx)]
  have hdot : (!(('.' : Char) == '.')) = false := by simp
  have hdrop : (base ++ "." ++ ext).data.reverse.dropWhile (fun c => !(c == '.'))
      = '.' :: base.data.reverse := by
    rw [hrev]; exact dropWhile_all_append _ _ _ _ hall hdot
  have htake : (base ++ "." ++ ext).data.reverse.takeWhile (fun c => !(c == '.'))
      = ext.data.reverse := by
    rw [hrev]; exact takeWhile_all_append _ _ _ _ hall hdot
  simp only [stripLastExt, hdrop, htake]
  simp [hne, mk_data]

/-- The regex replacement leaves a dot-free name unchanged. -/
theorem stripLastExt_no_dot (s : String) (h : ∀ c ∈ s.data, c ≠ '.') :
    stripLastExt s = s := by
  have hdrop : s.data.reverse.dropWhile (fun c => !(c == '.')) = [] :=
    dropWhile_all_nil _ _ fun x hx => by simp [h x (List.mem_reverse.mp hx)]
  simp [stripLastExt, hdrop]

/-- Claim C9: for a display name made of a base, a dot, and a non-empty
dot-free extension, the offered download name is the base with the
extension stripped and the fixed `-compressed.mp4` suffix appended. -/
theorem downloadName_strips_ext (base ext : String) (hne : ext.data ≠ [])
    (hnd : ∀ c ∈ ext.data, c ≠ '.') :
    downloadName (base ++ "." ++ ext) = base ++ "-compressed.mp4" := by
  rw [downloadName, stripLastExt_append base ext hne hnd]

/-- Witness for claim C9: `"clip.mov"` yields `"clip-compressed.mp4"`. -/
theorem downloadName_strips_ext_witness :
    downloadName ("clip" ++ "." ++ "mov") = "clip" ++ "-compressed.mp4" :=
  downloadName_strips_ext "clip" "mov" (by decide) (by decide)

/-- Claim C10: only the final dot-separated segment is stripped — a name
without any dot gets `-compressed.mp4` appended to the whole name
unchanged, and `"a.b.mov"` yields `"a.b-compressed.mp4"`. -/
theorem downloadName_last_segment_only :
    (∀ name : String, (∀ c ∈ name.data, c ≠ '.') →
      downloadName name = name ++ "-compressed.mp4") ∧
    downloadName "a.b.mov" = "a.b-compressed.mp4" := by
  refine ⟨fun name h => ?_, by decide⟩
  rw [downloadName, stripLastExt_no_dot name h]

/-- Witness for claim C10 at the dot-free name `"clip"`. -/
theorem downloadName_last_segment_only_witness :
    downloadName "clip" = "clip" ++ "-compressed.mp4" :=
  downloadName_last_segment_only.1 "clip" (by decide)
